import Mathlib

/-!
Verification development for the KetherServerDaemon repository (a daemon
managing Left 4 Dead 2 map add-ons).  The Rust sources are shallowly
embedded: pure string utilities become Lean functions on `List Char`,
the SQLite registry becomes a list of rows, the filesystem state touched
by the installation pipeline becomes explicit lists of file names, and
every effectful step whose outcome depends on the outside world (download
contents, VPK metadata extraction, checksum computation, fresh UUIDs,
clock reads) becomes an explicit parameter.  Character classification
functions model the ASCII fragment of the corresponding Rust
`char` methods (the add-on names and URLs the daemon handles are ASCII);
theorems that depend on character classes therefore carry an explicit
ASCII-input hypothesis where they quantify over arbitrary strings.
-/

/-- Decidable equality for Except results, used to evaluate the embedded
functions at concrete inputs. -/
instance {ε α : Type} [DecidableEq ε] [DecidableEq α] : DecidableEq (Except ε α) := fun a b =>
  match a, b with
  | .error x, .error y =>
    if h : x = y then .isTrue (by rw [h]) else .isFalse (by intro hc; cases hc; exact h rfl)
  | .error _, .ok _ => .isFalse (by intro hc; cases hc)
  | .ok _, .error _ => .isFalse (by intro hc; cases hc)
  | .ok x, .ok y =>
    if h : x = y then .isTrue (by rw [h]) else .isFalse (by intro hc; cases hc; exact h rfl)

namespace Kether

/-! ## Character-level helpers (src/utils/path_sanitizer.rs uses Rust char methods) -/

/-- ASCII fragment of the Rust predicate char::is_alphanumeric: code points
of the ranges A-Z (65-90), a-z (97-122) and 0-9 (48-57). -/
def rustIsAlphanumeric (c : Char) : Bool :=
  (65 ≤ c.toNat && c.toNat ≤ 90) ||
  (97 ≤ c.toNat && c.toNat ≤ 122) ||
  (48 ≤ c.toNat && c.toNat ≤ 57)

/-- ASCII fragment of Rust char lowercasing (str::to_lowercase applies it
pointwise): A-Z shift down by 32, everything else unchanged. -/
def rustToLower (c : Char) : Char :=
  if 65 ≤ c.toNat && c.toNat ≤ 90 then Char.ofNat (c.toNat + 32) else c

/-- ASCII fragment of Rust char::is_whitespace: space (32) and the control
characters 9-13 (tab, newline, vertical tab, form feed, carriage return). -/
def rustIsWhitespace (c : Char) : Bool :=
  c.toNat == 32 || (9 ≤ c.toNat && c.toNat ≤ 13)

/-- Filter used by sanitize_map_name: keep alphanumeric, dash (code point
45), underscore (95) and space (32) (path_sanitizer.rs lines 12-17). -/
def keepChar (c : Char) : Bool :=
  rustIsAlphanumeric c || c.toNat == 45 || c.toNat == 95 || c.toNat == 32

/-- Filter used by sanitize_filename: like keepChar but also keeps the dot
(code point 46) (path_sanitizer.rs lines 112-118). -/
def keepFileChar (c : Char) : Bool :=
  rustIsAlphanumeric c || c.toNat == 45 || c.toNat == 95 || c.toNat == 46 || c.toNat == 32

/-- Pointwise lowercasing of a character list (str::to_lowercase, ASCII
fragment). -/
def lowerChars (l : List Char) : List Char :=
  l.map rustToLower

/-- Model of str::trim: drop leading and trailing whitespace. -/
def trimChars (l : List Char) : List Char :=
  ((l.dropWhile rustIsWhitespace).reverse.dropWhile rustIsWhitespace).reverse

/-- Model of str::replace with the space pattern: every space (code point
32) becomes an underscore. -/
def spacesToUnderscores (l : List Char) : List Char :=
  l.map (fun c => if c.toNat == 32 then '_' else c)

/-- Lowercase an entire string (ASCII fragment). -/
def lowerStr (s : String) : String :=
  String.mk (lowerChars s.data)

/-- Head-character test standing for the Rust str::starts_with(char) calls
of the sanitizer. -/
def startsWithChar (s : String) (c : Char) : Bool :=
  s.data.head? == some c

/-- Prefix test standing for Rust str::starts_with(&str). -/
def startsWithStr (s t : String) : Bool :=
  List.isPrefixOf t.data s.data

/-- Suffix test standing for Rust str::ends_with(&str). -/
def endsWithStr (s t : String) : Bool :=
  List.isSuffixOf t.data s.data

/-! ## Name sanitization (src/utils/path_sanitizer.rs, sanitize_map_name) -/

/-- Embedding of sanitize_map_name (path_sanitizer.rs lines 9-40): filter to
the allowed character set, lowercase, trim, replace spaces by underscores,
then reject the empty result, a result longer than 255 (the input being
ASCII, Rust byte length equals character count), and a result starting with
a dot or a dash. -/
def sanitize_map_name (name : String) : Except String String :=
  let sanitized := name.data.filter keepChar
  let normalized := spacesToUnderscores (trimChars (lowerChars sanitized))
  if normalized.isEmpty then
    .error ("Map name cannot be empty after sanitization")
  else if normalized.length > 255 then
    .error ("Map name too long (max 255 characters)")
  else if normalized.head? == some ('.') || normalized.head? == some ('-') then
    .error ("Map name cannot start with a dot or a dash")
  else
    .ok (String.mk normalized)

/-! ## Path helpers (Rust std::path fragment used by the pipeline) -/

/-- Split a character list on a separator character (structural analogue
of str::split, so that concrete evaluation reduces in the kernel). -/
def splitOnChar (sep : Char) : List Char → List (List Char)
  | [] => [[]]
  | c :: rest =>
    match splitOnChar sep rest with
    | [] => [[]]
    | cur :: done =>
      if c == sep then [] :: cur :: done else (c :: cur) :: done

/-- Components of a path string in the sense of std::path::Components:
split on the separator, dropping empty pieces and the current-directory
component. -/
def pathComponents (p : String) : List String :=
  (((splitOnChar ('/') p.data).map String.mk).filter (fun s => (s != "") && (s != ".")))

/-- Model of Path::file_name composed with to_str: the final component,
none when there is none or it is a parent-directory reference. -/
def fileNameComponent (p : String) : Option String :=
  match (pathComponents p).getLast? with
  | some last => if last == (".." : String) then none else some last
  | none => none

/-- Characters after the last dot of a character list. -/
def afterLastDot (l : List Char) : List Char :=
  ((l.reverse.takeWhile (fun c => c != ('.'))).reverse)

/-- Extension of a bare file name, following Rust Path::extension on the
final component: the portion after the last dot, provided some dot occurs
after the first character; the names dot-dot and dot-prefixed names without
a later dot have no extension. -/
def extensionOfFileName (f : String) : Option String :=
  if f == (".." : String) then none
  else
    match f.data with
    | [] => none
    | _ :: rest => if rest.contains ('.') then some (String.mk (afterLastDot rest)) else none

/-- Model of Path::extension composed with to_str on a full path. -/
def pathExtension (p : String) : Option String :=
  match fileNameComponent p with
  | none => none
  | some f => extensionOfFileName f

/-- Embedding of sanitize_filename (path_sanitizer.rs lines 104-121): keep
only the final path component, strip unsafe characters, trim. -/
def sanitize_filename (filename : String) : String :=
  let fileOnly := (fileNameComponent filename).getD filename
  String.mk (trimChars (fileOnly.data.filter keepFileChar))

/-- Embedding of validate_path_within_base_new (path_sanitizer.rs lines
70-98) applied to the join of the add-ons base with a registry-relative
path: the join is rejected when any component of the relative path is a
parent-directory reference.  The base directory is taken canonical, and the
canonicalization branch for already-existing paths is not modeled (the
abstract filesystem has no symlinks, so containment coincides with the
component check). -/
def validate_path_within_base_new (relPath : String) : Except String Unit :=
  if (((splitOnChar ('/') relPath.data).map String.mk).any (fun c => c == (".."))) then
    .error ("Path contains parent directory reference")
  else
    .ok ()

/-! ## URL validation (src/utils/url_validator.rs) -/

/-- Literal IP address, the parse target of host.parse over std::net::IpAddr:
either four IPv4 octets or eight IPv6 segments. -/
inductive IpAddr where
  | v4 (a b c d : Nat)
  | v6 (s0 s1 s2 s3 s4 s5 s6 s7 : Nat)
deriving DecidableEq

/-- Embedding of is_private_ipv4 (url_validator.rs lines 84-99): the 10/8,
172.16/12, 192.168/16, 169.254/16 and 127/8 ranges. -/
def is_private_ipv4 (a b _c _d : Nat) : Bool :=
  a == 10 ||
  (a == 172 && 16 ≤ b && b ≤ 31) ||
  (a == 192 && b == 168) ||
  (a == 169 && b == 254) ||
  a == 127

/-- Embedding of is_private_ipv6 (url_validator.rs lines 102-139): loopback,
unique-local fc00::/7 and link-local fe80::/10 by segment masks, and
IPv4-mapped addresses of private IPv4 ranges. -/
def is_private_ipv6 (s0 s1 s2 s3 s4 s5 s6 s7 : Nat) : Bool :=
  if s0 == 0 && s1 == 0 && s2 == 0 && s3 == 0 && s4 == 0 && s5 == 0 && s6 == 0 && s7 == 1 then
    true
  else if (s0 &&& 0xfe00) == 0xfc00 then
    true
  else if (s0 &&& 0xffc0) == 0xfe80 then
    true
  else if s0 == 0 && s1 == 0 && s2 == 0 && s3 == 0 && s4 == 0 && s5 == 0xffff then
    is_private_ipv4 ((s6 >>> 8) &&& 0xff) (s6 &&& 0xff) ((s7 >>> 8) &&& 0xff) (s7 &&& 0xff)
  else
    false

/-- Embedding of is_private_ip (url_validator.rs lines 76-81). -/
def is_private_ip : IpAddr → Bool
  | .v4 a b c d => is_private_ipv4 a b c d
  | .v6 s0 s1 s2 s3 s4 s5 s6 s7 => is_private_ipv6 s0 s1 s2 s3 s4 s5 s6 s7

/-- Embedding of is_localhost (url_validator.rs lines 62-73). -/
def is_localhost (host : String) : Bool :=
  let h := lowerStr host
  h == ("localhost") || h == ("127.0.0.1") || h == ("::1") || h == ("0.0.0.0") ||
  h == ("[::1]") || h == ("[::]") || startsWithStr h ("127.")

/-- Outcome of url::Url::parse as the validator consumes it: the scheme,
and the host string paired with the result of parsing it as a literal IP
address (url_validator.rs lines 38-53 call host_str and host.parse). -/
structure UrlParts where
  scheme : String
  host : Option (String × Option IpAddr)
deriving DecidableEq

/-- Host checks of validate_url (url_validator.rs lines 38-56): the
localhost string check, then the private-IP check when the host parses as
a literal IP; a URL without a host is rejected. -/
def validate_url_host : Option (String × Option IpAddr) → Except String Unit
  | some (h, some ip) =>
    if is_localhost h then
      .error ("URL host is localhost (not allowed for security reasons)")
    else if is_private_ip ip then
      .error ("URL contains private/internal IP address (not allowed for security reasons)")
    else
      .ok ()
  | some (h, none) =>
    if is_localhost h then
      .error ("URL host is localhost (not allowed for security reasons)")
    else
      .ok ()
  | none => .error ("URL must have a host")

/-- Scheme check of validate_url (url_validator.rs lines 27-35) applied to
the parse outcome; none is the parse-failure case. -/
def validate_url_parsed : Option UrlParts → Except String Unit
  | none => .error ("Invalid URL format")
  | some u =>
    if u.scheme == ("http") || u.scheme == ("https") then
      validate_url_host u.host
    else
      .error ("Invalid URL scheme (only http and https are allowed)")

/-- Embedding of validate_url (url_validator.rs lines 16-59).  The length of
the URL string and the outcome of the external url crate parser are passed
explicitly. -/
def validate_url (urlLen : Nat) (parsed : Option UrlParts) : Except String Unit :=
  if urlLen > 2048 then
    .error ("URL exceeds maximum length of 2048 characters")
  else
    validate_url_parsed parsed

/-! ## Registry data model (src/registry/models.rs and src/registry/sqlite.rs) -/

/-- Embedding of the SourceKind enum (models.rs lines 7-10). -/
inductive SourceKind where
  | workshop
  | other
deriving DecidableEq

/-- Embedding of the MapEntry record (models.rs lines 13-43).  Timestamps
are abstracted to a Nat tick; the id is a string, exactly as in the
source (the installation pipeline fills it with a fresh UUID). -/
structure MapEntry where
  id : String
  name : String
  source_url : String
  source_kind : SourceKind
  workshop_id : Option Nat
  installed_path : String
  installed_at : Nat
  version : Option String
  checksum : Option String
  checksum_kind : Option String
deriving DecidableEq

/-- Row of the maps table as SQLite stores it (sqlite.rs schema lines
25-39 plus the migrated columns): source_kind is a free string and
workshop_id a signed 64-bit integer, so schema drift is representable.
The stored RFC 3339 timestamp text is abstracted to its parsed value
together with a flag telling whether parsing succeeds. -/
structure Row where
  id : String
  name : String
  source_url : String
  source_kind : String
  workshop_id : Option Int
  installed_path : String
  installed_at_valid : Bool
  installed_at : Nat
  version : Option String
  checksum : Option String
  checksum_kind : Option String
deriving DecidableEq

/-- Cast of a stored signed 64-bit workshop id to u64, as the Rust
expression (v as u64): two-complement reinterpretation, i.e. reduction
modulo 2 ^ 64. -/
def intToU64 (v : Int) : Nat :=
  (v % ((2 : Int) ^ 64)).toNat

/-- Embedding of map_entry_from_row (sqlite.rs lines 103-138): unknown
source_kind strings coerce to Other (the source logs a warning), the
workshop id is cleared unless the kind is Workshop, and a timestamp that
does not parse as RFC 3339 makes the whole row unreadable. -/
def map_entry_from_row (row : Row) : Except String MapEntry :=
  let source_kind :=
    match row.source_kind with
    | "workshop" => SourceKind.workshop
    | "other" => SourceKind.other
    | _ => SourceKind.other
  let workshop_id0 := row.workshop_id.map intToU64
  let workshop_id := if source_kind == SourceKind.workshop then workshop_id0 else none
  if row.installed_at_valid then
    .ok
      { id := row.id
        name := row.name
        source_url := row.source_url
        source_kind := source_kind
        workshop_id := workshop_id
        installed_path := row.installed_path
        installed_at := row.installed_at
        version := row.version
        checksum := row.checksum
        checksum_kind := row.checksum_kind }
  else
    .error ("input contains invalid characters")

/-- Encoding of a SourceKind back to its stored string (sqlite.rs lines
144-147). -/
def sourceKindStr : SourceKind → String
  | .workshop => "workshop"
  | .other => "other"

/-- Row written by add_map for an entry (sqlite.rs lines 143-173): the
workshop id is cleared unless the kind is Workshop, and to_rfc3339 of the
timestamp always parses back. -/
def rowOfEntry (entry : MapEntry) : Row :=
  { id := entry.id
    name := entry.name
    source_url := entry.source_url
    source_kind := sourceKindStr entry.source_kind
    workshop_id :=
      (if entry.source_kind == SourceKind.workshop then entry.workshop_id else none).map
        (fun n => (n : Int))
    installed_path := entry.installed_path
    installed_at_valid := true
    installed_at := entry.installed_at
    version := entry.version
    checksum := entry.checksum
    checksum_kind := entry.checksum_kind }

/-- Embedding of add_map (sqlite.rs lines 143-177): a plain INSERT, which
fails exactly when the primary key (the caller-supplied string id)
collides with an existing row; nothing else is checked and no id is
assigned by the store. -/
def add_map (db : List Row) (entry : MapEntry) : Except String (List Row) :=
  if db.any (fun r => r.id == entry.id) then
    .error ("UNIQUE constraint failed: maps.id")
  else
    .ok (db ++ [rowOfEntry entry])

/-- Embedding of remove_map (sqlite.rs lines 179-190): DELETE by id, a
no-op when the id is absent. -/
def remove_map (db : List Row) (id : String) : List Row :=
  db.filter (fun r => r.id != id)

/-- Embedding of get_map (sqlite.rs lines 192-202): fetch the row by id
and decode it; a decoding failure propagates. -/
def get_map (db : List Row) (id : String) : Except String (Option MapEntry) :=
  match db.find? (fun r => r.id == id) with
  | none => .ok none
  | some row => (map_entry_from_row row).map some

/-- Embedding of list_maps (sqlite.rs lines 204-220): decode every row,
logging and skipping rows that fail to decode. -/
def list_maps (db : List Row) : List MapEntry :=
  db.filterMap (fun row => (map_entry_from_row row).toOption)

/-! ## Installation pipeline (src/map_installer/service.rs) -/

/-- Metadata pulled from the addoninfo.txt blob of a VPK (extractor
output consumed by the pipeline). -/
structure VpkMetadata where
  title : String
  version : String
deriving DecidableEq

/-- State the pipeline acts on: the registry rows, the set of file names
in the add-ons directory, and the set of temporary artifacts (downloaded
archives and scratch extraction directories) in the temp directory. -/
structure InstallSt where
  registry : List Row
  addons : List String
  temps : List String
deriving DecidableEq

/-- Placing a file by name: tokio::fs::copy overwrites an existing file of
the same name, so as a set of names this is insertion. -/
def fsInsert (fs : List String) (name : String) : List String :=
  if fs.contains name then fs else fs ++ [name]

/-- Removing a file by name (tokio::fs::remove_file or remove_dir_all). -/
def fsErase (fs : List String) (name : String) : List String :=
  fs.filter (fun f => f != name)

/-- File name under which the pipeline places a VPK (service.rs lines
169-180 and 287-298): the file name of the source VPK path, or a fixed
fallback, sanitized, with the vpk suffix appended when missing. -/
def placedVpkFilename (vpkPath : String) : String :=
  let raw := (fileNameComponent vpkPath).getD ("unknown.vpk")
  let f := sanitize_filename raw
  if endsWithStr f (".vpk") then f else f ++ (".vpk")

/-- Embedding of install_vpk_file (service.rs lines 150-235).  The
environment-dependent steps are explicit arguments: meta is the outcome of
extract_vpk_metadata on the downloaded file, newId the fresh UUID, copyOk
whether the copy into the add-ons directory succeeds, checksum the
(non-fatal) MD5 result, and now the clock.  Returns the state after the
call together with the result. -/
def install_vpk_file (st : InstallSt) (vpkPath : String) (source_kind : SourceKind)
    (workshop_id : Option Nat) (provided_name : Option String)
    (meta : Except String VpkMetadata) (newId : String) (copyOk : Bool)
    (checksum : Option String) (now : Nat) : InstallSt × Except String MapEntry :=
  match meta with
  | .error e => (st, .error e)
  | .ok md =>
    let raw_map_name := provided_name.getD md.title
    match sanitize_map_name raw_map_name with
    | .error e => (st, .error e)
    | .ok map_name =>
      let vpk_filename := placedVpkFilename vpkPath
      if copyOk then
        let addons1 := fsInsert st.addons vpk_filename
        let checksum_kind := checksum.map (fun _ => ("md5" : String))
        let source_url :=
          match source_kind, workshop_id with
          | SourceKind.workshop, some ws => ("workshop:") ++ toString ws
          | _, _ => ("file:") ++ vpk_filename
        let workshop_id :=
          match source_kind with
          | SourceKind.workshop => workshop_id
          | SourceKind.other => none
        let map_entry : MapEntry :=
          { id := newId
            name := map_name
            source_url := source_url
            source_kind := source_kind
            workshop_id := workshop_id
            installed_path := vpk_filename
            installed_at := now
            version := some md.version
            checksum := checksum
            checksum_kind := checksum_kind }
        match add_map st.registry map_entry with
        | .error e =>
          ({ st with addons := fsErase addons1 vpk_filename }, .error e)
        | .ok db2 =>
          ({ registry := db2, addons := addons1, temps := fsErase st.temps vpkPath },
            .ok map_entry)
      else
        (st, .error ("copy of the VPK into the add-ons directory failed"))

/-- Embedding of install_zip_file (service.rs lines 238-350).  Explicit
environment arguments: hasVpk is the zip_contains_vpk outcome (an archive
error propagates), scratch the fresh extraction directory name, extractOk
whether extract_zip succeeds, foundVpks the recursive VPK search result,
then the VPK leg exactly as in install_vpk_file. -/
def install_zip_file (st : InstallSt) (zipPath : String) (_source_kind : SourceKind)
    (provided_name : Option String) (hasVpk : Except String Bool) (scratch : String)
    (extractOk : Bool) (foundVpks : List String) (meta : Except String VpkMetadata)
    (newId : String) (copyOk : Bool) (checksum : Option String) (now : Nat) :
    InstallSt × Except String MapEntry :=
  match hasVpk with
  | .error e => (st, .error e)
  | .ok false => (st, .error ("ZIP file does not contain any .vpk files"))
  | .ok true =>
    let temps1 := fsInsert st.temps scratch
    if extractOk then
      match foundVpks with
      | [] => ({ st with temps := fsErase temps1 scratch },
          .error ("No .vpk files found in extracted ZIP"))
      | source_vpk_path :: _ =>
        let st1 : InstallSt := { st with temps := temps1 }
        match meta with
        | .error e => (st1, .error e)
        | .ok md =>
          let raw_map_name := provided_name.getD md.title
          match sanitize_map_name raw_map_name with
          | .error e => (st1, .error e)
          | .ok map_name =>
            let vpk_filename := placedVpkFilename source_vpk_path
            if copyOk then
              let addons1 := fsInsert st.addons vpk_filename
              let checksum_kind := checksum.map (fun _ => ("md5" : String))
              let source_url :=
                match fileNameComponent zipPath with
                | some n => ("zip:") ++ n
                | none => ("zip:unknown")
              let map_entry : MapEntry :=
                { id := newId
                  name := map_name
                  source_url := source_url
                  source_kind := _source_kind
                  workshop_id := none
                  installed_path := vpk_filename
                  installed_at := now
                  version := some md.version
                  checksum := checksum
                  checksum_kind := checksum_kind }
              match add_map st.registry map_entry with
              | .error e =>
                ({ st1 with addons := fsErase addons1 vpk_filename }, .error e)
              | .ok db2 =>
                ({ registry := db2
                   addons := addons1
                   temps := fsErase (fsErase temps1 zipPath) scratch }, .ok map_entry)
            else
              (st1, .error ("Failed to copy VPK file to addons directory"))
    else
      ({ st with temps := fsErase temps1 scratch }, .error ("zip extraction failed"))

/-- Routing decision of install_downloaded_file, with a record of whether
the content probe (is_vpk_file) ran. -/
inductive InstallDecision where
  | viaVpk (probed : Bool)
  | viaZip
  | unsupported (probed : Bool) (ext : String)
deriving DecidableEq

/-- Whether a routing decision involved the content probe. -/
def decisionProbed : InstallDecision → Bool
  | .viaVpk b => b
  | .viaZip => false
  | .unsupported b _ => b

/-- Embedding of the type-detection logic of install_downloaded_file
(service.rs lines 112-138): dispatch on the lowercased extension; in the
default arm, only a missing or empty extension triggers the content probe
(is_vpk_file, whose outcome probeIsVpk is passed in); everything else is
rejected as unsupported. -/
def install_downloaded_file (filePath : String) (probeIsVpk : Bool) : InstallDecision :=
  let extOpt := pathExtension filePath
  let file_ext := lowerStr (extOpt.getD (""))
  match file_ext with
  | "vpk" => .viaVpk false
  | "zip" => .viaZip
  | _ =>
    if extOpt.isNone || file_ext.isEmpty then
      if probeIsVpk then .viaVpk true else .unsupported true file_ext
    else
      .unsupported false file_ext

/-- Embedding of uninstall_map (service.rs lines 510-541): look up the
entry (a missing id is an error), validate containment of the installed
path, remove the file when present (absence is a no-op), then delete the
registry row. -/
def uninstall_map (st : InstallSt) (map_id : String) : InstallSt × Except String Unit :=
  match get_map st.registry map_id with
  | .error e => (st, .error e)
  | .ok none => (st, .error (("Map not found: ") ++ map_id))
  | .ok (some entry) =>
    match validate_path_within_base_new entry.installed_path with
    | .error e => (st, .error e)
    | .ok _ =>
      let st1 :=
        if st.addons.contains entry.installed_path then
          { st with addons := fsErase st.addons entry.installed_path }
        else
          st
      ({ st1 with registry := remove_map st1.registry map_id }, .ok ())

/-- Embedding of detect_map_from_path (service.rs lines 544-590), the
watcher reconciliation:  relOpt is the outcome of strip_prefix against the
add-ons directory, ext the path extension, pathDisplay the display form of
the absolute path, meta the metadata extraction outcome; a new entry is
registered with the metadata title as its name. -/
def detect_map_from_path (db : List Row) (relOpt : Option String) (ext : Option String)
    (pathDisplay : String) (meta : Except String VpkMetadata) (checksum : Option String)
    (newId : String) (now : Nat) : List Row × Except String (Option MapEntry) :=
  match relOpt with
  | none => (db, .ok none)
  | some rel =>
    if ext == some ("vpk") then
      match meta with
      | .error _ => (db, .ok none)
      | .ok md =>
        match (list_maps db).find? (fun m => m.installed_path == rel) with
        | some existing => (db, .ok (some existing))
        | none =>
          let checksum_kind := checksum.map (fun _ => ("md5" : String))
          let map_entry : MapEntry :=
            { id := newId
              name := md.title
              source_url := ("detected:") ++ pathDisplay
              source_kind := SourceKind.other
              workshop_id := none
              installed_path := rel
              installed_at := now
              version := some md.version
              checksum := checksum
              checksum_kind := checksum_kind }
          match add_map db map_entry with
          | .error e => (db, .error e)
          | .ok db2 => (db2, .ok (some map_entry))
    else
      (db, .ok none)

/-! ## Backend synchronization (src/sync/backend.rs and the sync task of
src/main.rs) -/

/-- Update record pulled from the backend (sync/traits.rs lines 7-11). -/
structure MapUpdate where
  action : String
  map_id : String
  map_entry : Option MapEntry
deriving DecidableEq

/-- Outcome of the GET request fetch_updates sends: a transport error from
send, or a response with an HTTP status and the result of JSON-decoding
the body (none when decoding fails). -/
inductive FetchResp where
  | transportError (e : String)
  | response (status : Nat) (body : Option (List MapUpdate))
deriving DecidableEq

/-- Model of reqwest StatusCode::is_success: the 2xx range. -/
def is_success_status (status : Nat) : Bool :=
  200 ≤ status && status < 300

/-- Embedding of fetch_updates (sync/backend.rs lines 86-104): a transport
error propagates, a non-success status yields an empty update list (the
source comments: return empty on error to allow continuation), and a
successful status decodes the body. -/
def fetch_updates (resp : FetchResp) : Except String (List MapUpdate) :=
  match resp with
  | .transportError e => .error e
  | .response status body =>
    if is_success_status status then
      match body with
      | none => .error ("error decoding response body")
      | some updates => .ok updates
    else
      .ok []

/-- Action the sync task takes for one pulled update (main.rs lines
107-147). -/
inductive SyncAction where
  | installFromWorkshop (ws : Nat)
  | installFromUrl (url : String) (name : String)
  | uninstallRequested (map_id : String)
  | skipMissingDetails (map_id : String)
  | skipUnknown (action : String)
deriving DecidableEq

/-- Embedding of the per-update routing of the sync task (main.rs lines
107-147): install prefers the workshop id of the carried entry over its
source URL; an install without details and an unknown action are logged
and skipped; uninstall goes to the pipeline. -/
def route_update (u : MapUpdate) : SyncAction :=
  match u.action with
  | "install" =>
    match u.map_entry with
    | some e =>
      match e.workshop_id with
      | some ws => .installFromWorkshop ws
      | none => .installFromUrl e.source_url e.name
    | none => .skipMissingDetails u.map_id
  | "uninstall" => .uninstallRequested u.map_id
  | _ => .skipUnknown u.action

/-- One cycle of the sync task (main.rs lines 101-165): the pull phase
routes every fetched update (an error empties the batch), and the push
phase (sync_registry of the listed maps) runs unconditionally afterwards. -/
structure SyncCycle where
  pullActions : List SyncAction
  pushed : Bool
deriving DecidableEq

/-- Embedding of one iteration of the sync loop body: fetch, route each
update, then push. -/
def sync_cycle (resp : FetchResp) : SyncCycle :=
  let acts :=
    match fetch_updates resp with
    | .ok updates => updates.map route_update
    | .error _ => []
  { pullActions := acts, pushed := true }

/-! ## Specification-side definitions

These definitions follow the wording of the specification (not the code)
and are compared against the embedded source functions. -/

/-- Collapse runs of spaces to a single space (the whitespace surviving the
character filter is exactly the space). -/
def squeezeSpaces : List Char → List Char
  | [] => []
  | [c] => [c]
  | a :: b :: rest =>
    if a == (' ') && b == (' ') then squeezeSpaces (b :: rest)
    else a :: squeezeSpaces (b :: rest)

/-- Character set of the specification for map names: a-z, 0-9, space,
underscore, dash. -/
def inNameSet (c : Char) : Bool :=
  (97 ≤ c.toNat && c.toNat ≤ 122) || (48 ≤ c.toNat && c.toNat ≤ 57) ||
  c.toNat == 32 || c.toNat == 95 || c.toNat == 45

/-- Name sanitization as the specification words it, including the
whitespace-collapsing step: lowercase, strip characters outside the name
set, collapse whitespace, trim, turn spaces into underscores, then the
three rejections. -/
def claimSanitizeWithCollapse (name : String) : Except String String :=
  let stripped := (lowerChars name.data).filter inNameSet
  let normalized := spacesToUnderscores (trimChars (squeezeSpaces stripped))
  if normalized.isEmpty then
    .error ("Map name cannot be empty after sanitization")
  else if normalized.length > 255 then
    .error ("Map name too long (max 255 characters)")
  else if normalized.head? == some ('.') || normalized.head? == some ('-') then
    .error ("Map name cannot start with a dot or a dash")
  else
    .ok (String.mk normalized)

/-- Normal form of the amended sanitization claim: lowercase, strip
characters outside the name set, trim, turn each space into an underscore
(runs of spaces are not collapsed). -/
def amendedNormalize (s : String) : String :=
  String.mk (spacesToUnderscores (trimChars ((lowerChars s.data).filter inNameSet)))

/-- ASCII input predicate for the sanitizer theorems (the embedding models
the ASCII fragment of the Rust character classes). -/
def isAsciiString (s : String) : Bool :=
  s.data.all (fun c => c.toNat < 128)

/-- Address ranges the claim about the URL validator enumerates: loopback,
private and link-local IPv4 ranges, and their IPv6 equivalents (loopback,
unique-local fc00::/7, link-local fe80::/10). -/
def inClaimedPrivateRanges : IpAddr → Bool
  | .v4 a b _ _ =>
    a == 127 || a == 10 || (a == 172 && 16 ≤ b && b ≤ 31) ||
    (a == 192 && b == 168) || (a == 169 && b == 254)
  | .v6 s0 s1 s2 s3 s4 s5 s6 s7 =>
    (s0 == 0 && s1 == 0 && s2 == 0 && s3 == 0 && s4 == 0 && s5 == 0 && s6 == 0 && s7 == 1) ||
    (0xfc00 ≤ s0 && s0 ≤ 0xfdff) || (0xfe80 ≤ s0 && s0 ≤ 0xfebf)

/-- Lowercased extension string install_downloaded_file dispatches on. -/
def lowerExt (p : String) : String :=
  lowerStr ((pathExtension p).getD (""))

/-- Condition under which install_downloaded_file reaches the content
probe: the extension is missing or empty. -/
def extProbeCond (p : String) : Bool :=
  (pathExtension p).isNone || (lowerExt p).isEmpty

/-- Concrete map entry used in the registry evaluations. -/
def sampleEntryA : MapEntry :=
  { id := "5f2b6e0a-1cbb-4b85-9d2e-2a93a41c0001"
    name := "alpha"
    source_url := "file:alpha.vpk"
    source_kind := SourceKind.other
    workshop_id := none
    installed_path := "alpha.vpk"
    installed_at := 1
    version := none
    checksum := none
    checksum_kind := none }

/-- Concrete map entry used in the uninstall evaluation. -/
def entryN : MapEntry :=
  { id := "map-n"
    name := "test_map"
    source_url := "zip:n.zip"
    source_kind := SourceKind.other
    workshop_id := none
    installed_path := "n.vpk"
    installed_at := 2
    version := some "1.0"
    checksum := none
    checksum_kind := none }

/-! ## Shared lemmas -/

/-- Decoded entries always satisfy invariant I1: no workshop id outside the
Workshop kind. -/
theorem map_entry_from_row_I1 (row : Row) (e : MapEntry)
    (h : map_entry_from_row row = .ok e) :
    e.source_kind ≠ SourceKind.workshop → e.workshop_id = none := by
  intro hks
  unfold map_entry_from_row at h
  split at h <;> simp only at h <;> split at h <;>
    first
    | (simp only [Except.ok.injEq] at h
       subst h
       first
       | (exact absurd rfl hks)
       | simp)
    | (simp at h)

/-- Decoding coerces any source_kind string other than the two known ones
to Other. -/
theorem map_entry_from_row_coerce (row : Row) (e : MapEntry)
    (h : map_entry_from_row row = .ok e)
    (h1 : row.source_kind ≠ ("workshop" : String))
    (h2 : row.source_kind ≠ ("other" : String)) :
    e.source_kind = SourceKind.other := by
  unfold map_entry_from_row at h
  split at h <;> simp only at h
  case _ hmatch => exact absurd hmatch h1
  case _ hmatch => exact absurd hmatch h2
  case _ =>
    split at h
    · simp only [Except.ok.injEq] at h
      subst h
      rfl
    · simp at h

/-! ## Claim C10 -/

/-- C10: when the backend answers the updates pull with any non-success
HTTP status, fetch_updates returns Ok with an empty update list rather
than an error, and the sync cycle treats it as no pending updates while
still performing the push phase. -/
theorem C10_fetch_updates_nonsuccess (status : Nat) (body : Option (List MapUpdate))
    (h : is_success_status status = false) :
    fetch_updates (.response status body) = .ok [] ∧
    sync_cycle (.response status body) = { pullActions := [], pushed := true } := by
  refine ⟨?_, ?_⟩ <;> simp [fetch_updates, sync_cycle, h]

/-- Witness for C10 at the concrete status 500. -/
theorem C10_fetch_updates_nonsuccess_witness :
    fetch_updates (.response 500 none) = .ok [] ∧
    sync_cycle (.response 500 none) = { pullActions := [], pushed := true } :=
  C10_fetch_updates_nonsuccess 500 none (by decide)

/-! ## Claim C8 -/

/-- C8: every row read back through get_map or list_maps coerces unknown
source_kind strings to Other, and the produced entry satisfies invariant
I1 (workshop_id is none whenever source_kind is not Workshop) regardless
of the stored row. -/
theorem C8_read_invariants :
    (∀ (row : Row) (e : MapEntry), map_entry_from_row row = .ok e →
      (row.source_kind ≠ ("workshop" : String) → row.source_kind ≠ ("other" : String) →
        e.source_kind = SourceKind.other) ∧
      (e.source_kind ≠ SourceKind.workshop → e.workshop_id = none)) ∧
    (∀ (db : List Row) (id : String) (e : MapEntry), get_map db id = .ok (some e) →
      e.source_kind ≠ SourceKind.workshop → e.workshop_id = none) ∧
    (∀ (db : List Row) (e : MapEntry), e ∈ list_maps db →
      e.source_kind ≠ SourceKind.workshop → e.workshop_id = none) := by
  refine ⟨fun row e h => ⟨fun h1 h2 => map_entry_from_row_coerce row e h h1 h2,
    map_entry_from_row_I1 row e h⟩, ?_, ?_⟩
  · intro db id e h
    unfold get_map at h
    split at h
    · cases h
    · rename_i row hrow
      cases hrow2 : map_entry_from_row row with
      | error err => rw [hrow2] at h; simp [Except.map] at h
      | ok e2 =>
        rw [hrow2] at h
        simp only [Except.map, Except.ok.injEq, Option.some.injEq] at h
        subst h
        exact map_entry_from_row_I1 row e2 hrow2
  · intro db e h
    unfold list_maps at h
    rcases List.mem_filterMap.mp h with ⟨row, _, hrow⟩
    cases hrow2 : map_entry_from_row row with
    | error err => rw [hrow2] at hrow; simp [Except.toOption] at hrow
    | ok e2 =>
      rw [hrow2] at hrow
      simp only [Except.toOption, Option.some.injEq] at hrow
      subst hrow
      exact map_entry_from_row_I1 row e2 hrow2

/-! ## Claim C2 -/

/-- C2 evaluation at the failing input: add_map stores the caller-supplied
string id verbatim (no server assignment happens), and after remove_map the
very same id is accepted again, so ids are reused.  This contradicts the
Registry trait documentation in the repository, which declares add_map as
returning an assigned auto-increment u64 id. -/
theorem C2_id_reuse_eval :
    add_map [] sampleEntryA = .ok [rowOfEntry sampleEntryA] ∧
    remove_map [rowOfEntry sampleEntryA] sampleEntryA.id = [] ∧
    add_map (remove_map [rowOfEntry sampleEntryA] sampleEntryA.id) sampleEntryA =
      .ok [rowOfEntry sampleEntryA] := by
  refine ⟨rfl, by decide, by decide⟩

/-! ## Claim C3 -/

/-- C3 evaluation at the failing input: after a successful uninstall of
the entry, a second uninstall of the same id returns an error (Map not
found), which the HTTP handler surfaces as 500 — not the 200 the claim
(and the repository test expecting Ok for a missing id) describes. -/
theorem C3_second_uninstall_eval :
    (uninstall_map { registry := [rowOfEntry entryN], addons := ["n.vpk"], temps := [] }
        ("map-n")).2 = .ok () ∧
    (uninstall_map { registry := [rowOfEntry entryN], addons := ["n.vpk"], temps := [] }
        ("map-n")).1 = { registry := [], addons := [], temps := [] } ∧
    (uninstall_map { registry := [], addons := [], temps := [] } ("map-n")).2 =
      .error ("Map not found: map-n") := by
  refine ⟨by decide, by decide, by decide⟩

/-! ## Claim C5 -/

/-- C5 counterexample: a file with the unknown (non-empty) extension rar
is rejected without any content probe, even with a probe that would
identify it as a VPK — the claim says every unknown extension triggers
the probe. -/
theorem C5_probe_counterexample :
    pathExtension ("map.rar") = some ("rar") ∧
    install_downloaded_file ("map.rar") true = .unsupported false ("rar") := by
  refine ⟨by decide, by decide⟩

/-- C5 amended: dispatch is extension-based (vpk and zip each take their
leg), the content probe runs exactly when the extension is missing or
empty (probe success means VPK, failure means rejection), and a file with
an unknown non-empty extension is rejected without probing. -/
theorem lowerExt_vpk_cond (p : String) (h : lowerExt p = ("vpk" : String)) :
    extProbeCond p = false := by
  unfold extProbeCond
  rw [h]
  cases hopt : pathExtension p with
  | none =>
    exfalso
    unfold lowerExt at h
    rw [hopt] at h
    exact absurd h (by decide)
  | some ext => simp only [Option.isNone_some, Bool.false_or]; decide

/-- Helper: a path dispatching to the ZIP leg has a real extension. -/
theorem lowerExt_zip_cond (p : String) (h : lowerExt p = ("zip" : String)) :
    extProbeCond p = false := by
  unfold extProbeCond
  rw [h]
  cases hopt : pathExtension p with
  | none =>
    exfalso
    unfold lowerExt at h
    rw [hopt] at h
    exact absurd h (by decide)
  | some ext => simp only [Option.isNone_some, Bool.false_or]; decide

/-- Helper: closed form of the type-detection dispatch. -/
theorem install_dispatch_eq (p : String) (probe : Bool) :
    install_downloaded_file p probe =
      if lowerExt p = ("vpk" : String) then .viaVpk false
      else if lowerExt p = ("zip" : String) then .viaZip
      else if extProbeCond p then
        (if probe then .viaVpk true else .unsupported true (lowerExt p))
      else .unsupported false (lowerExt p) := by
  simp only [install_downloaded_file, lowerExt, extProbeCond]
  split
  · rename_i heq
    rw [if_pos heq]
  · rename_i heq
    rw [if_neg (by simp [heq]), if_pos heq]
  · rename_i hnv hnz
    rw [if_neg hnv, if_neg hnz]

/-- C5 amended: dispatch is extension-based (vpk and zip each take their
leg), the content probe runs exactly when the extension is missing or
empty (probe success means VPK, failure means rejection), and a file with
an unknown non-empty extension is rejected without probing. -/
theorem C5_type_detection_amended (p : String) (probe : Bool) :
    (decisionProbed (install_downloaded_file p probe) = extProbeCond p) ∧
    (lowerExt p = ("vpk" : String) → install_downloaded_file p probe = .viaVpk false) ∧
    (lowerExt p = ("zip" : String) → install_downloaded_file p probe = .viaZip) ∧
    (lowerExt p ≠ ("vpk" : String) → lowerExt p ≠ ("zip" : String) →
      extProbeCond p = false →
      install_downloaded_file p probe = .unsupported false (lowerExt p)) ∧
    (extProbeCond p = true →
      install_downloaded_file p probe =
        if probe then .viaVpk true else .unsupported true (lowerExt p)) := by
  rw [install_dispatch_eq]
  by_cases h1 : lowerExt p = ("vpk" : String)
  · refine ⟨?_, fun _ => by rw [if_pos h1], fun h2 => absurd (h1.symm.trans h2) (by decide),
      fun hn _ _ => absurd h1 hn, fun hc => ?_⟩
    · rw [if_pos h1]
      simp [decisionProbed, lowerExt_vpk_cond p h1]
    · rw [lowerExt_vpk_cond p h1] at hc
      cases hc
  · by_cases h2 : lowerExt p = ("zip" : String)
    · refine ⟨?_, fun hv => absurd (h2.symm.trans hv) (by decide),
        fun _ => by rw [if_neg h1, if_pos h2], fun _ hn _ => absurd h2 hn, fun hc => ?_⟩
      · rw [if_neg h1, if_pos h2]
        simp [decisionProbed, lowerExt_zip_cond p h2]
      · rw [lowerExt_zip_cond p h2] at hc
        cases hc
    · rw [if_neg h1, if_neg h2]
      by_cases hc : extProbeCond p = true
      · rw [if_pos hc]
        refine ⟨?_, ?_, ?_, ?_, ?_⟩
        · cases probe <;> simp [decisionProbed, hc]
        · intro hv; exact absurd hv h1
        · intro hz; exact absurd hz h2
        · intro _ _ hfalse
          rw [hc] at hfalse
          cases hfalse
        · intro _; rfl
      · have hcf : extProbeCond p = false := by simpa using hc
        rw [if_neg hc]
        refine ⟨?_, ?_, ?_, ?_, ?_⟩
        · simp [decisionProbed, hcf]
        · intro hv; exact absurd hv h1
        · intro hz; exact absurd hz h2
        · intro _ _ _; rfl
        · intro htrue
          rw [htrue] at hcf
          cases hcf

/-! ## Claim C7 -/

/-- Result-kind test used to state that a validation fails. -/
def isError {ε α : Type} : Except ε α → Bool
  | .error _ => true
  | .ok _ => false

set_option maxRecDepth 4000 in
/-- Bit masking facts for the unique-local range fc00::/7. -/
theorem land_fc00 : ∀ k : Fin 512, (((0xfc00 + k.val) : Nat) &&& 0xfe00) = 0xfc00 := by decide

set_option maxRecDepth 4000 in
/-- Bit masking facts for the link-local range fe80::/10 against the
fc00 mask. -/
theorem land_fe80_fe00 : ∀ k : Fin 64, (((0xfe80 + k.val) : Nat) &&& 0xfe00) = 0xfe00 := by decide

set_option maxRecDepth 4000 in
/-- Bit masking facts for the link-local range fe80::/10. -/
theorem land_fe80 : ∀ k : Fin 64, (((0xfe80 + k.val) : Nat) &&& 0xffc0) = 0xfe80 := by decide

/-- Addresses of the claimed ranges are recognized by is_private_ip. -/
theorem claimed_implies_private (ip : IpAddr)
    (h : inClaimedPrivateRanges ip = true) : is_private_ip ip = true := by
  cases ip with
  | v4 a b c d =>
    simp only [inClaimedPrivateRanges, is_private_ip, is_private_ipv4] at h ⊢
    simp only [Bool.or_eq_true, Bool.and_eq_true, beq_iff_eq, decide_eq_true_eq] at h ⊢
    omega
  | v6 s0 s1 s2 s3 s4 s5 s6 s7 =>
    simp only [inClaimedPrivateRanges, Bool.or_eq_true, Bool.and_eq_true, beq_iff_eq,
      decide_eq_true_eq] at h
    rcases h with (hone | hfc) | hfe
    · obtain ⟨⟨⟨⟨⟨⟨⟨h0, h1⟩, h2⟩, h3⟩, h4⟩, h5⟩, h6⟩, h7⟩ := hone
      subst h0; subst h1; subst h2; subst h3; subst h4; subst h5; subst h6; subst h7
      decide
    · obtain ⟨hlo, hhi⟩ := hfc
      have hk2 : s0 - 0xfc00 < 512 := by omega
      have hs : 0xfc00 + (s0 - 0xfc00) = s0 := by omega
      have hland : s0 &&& 0xfe00 = 0xfc00 := by
        have hval : (0xfc00 + (s0 - 0xfc00)) &&& 0xfe00 = 0xfc00 := land_fc00 ⟨s0 - 0xfc00, hk2⟩
        rwa [hs] at hval
      have h0 : (s0 == 0) = false := by
        simp only [beq_eq_false_iff_ne, ne_eq]
        omega
      simp [is_private_ip, is_private_ipv6, hland, h0]
    · obtain ⟨hlo, hhi⟩ := hfe
      have hk2 : s0 - 0xfe80 < 64 := by omega
      have hs : 0xfe80 + (s0 - 0xfe80) = s0 := by omega
      have hland1 : s0 &&& 0xfe00 = 0xfe00 := by
        have hval : (0xfe80 + (s0 - 0xfe80)) &&& 0xfe00 = 0xfe00 := land_fe80_fe00 ⟨s0 - 0xfe80, hk2⟩
        rwa [hs] at hval
      have hland2 : s0 &&& 0xffc0 = 0xfe80 := by
        have hval : (0xfe80 + (s0 - 0xfe80)) &&& 0xffc0 = 0xfe80 := land_fe80 ⟨s0 - 0xfe80, hk2⟩
        rwa [hs] at hval
      have h0 : (s0 == 0) = false := by
        simp only [beq_eq_false_iff_ne, ne_eq]
        omega
      simp [is_private_ip, is_private_ipv6, hland1, hland2, h0]

/-- C7: validate_url fails for every parsed URL whose scheme is neither
http nor https; it fails for every URL whose host carries a literal IP
address of the claimed loopback, private or link-local ranges (IPv4 or
IPv6); and it succeeds on the public-IP URL http://8.8.8.8/. -/
theorem C7_url_validator :
    (∀ (urlLen : Nat) (u : UrlParts),
      u.scheme ≠ ("http" : String) → u.scheme ≠ ("https" : String) →
      isError (validate_url urlLen (some u)) = true) ∧
    (∀ (urlLen : Nat) (u : UrlParts) (hostStr : String) (ip : IpAddr),
      u.host = some (hostStr, some ip) → inClaimedPrivateRanges ip = true →
      isError (validate_url urlLen (some u)) = true) ∧
    validate_url (String.length ("http://8.8.8.8/"))
      (some { scheme := "http", host := some (("8.8.8.8"), some (.v4 8 8 8 8)) }) =
      .ok () := by
  refine ⟨?_, ?_, by decide⟩
  · intro urlLen u h1 h2
    unfold validate_url
    by_cases hl : urlLen > 2048
    · rw [if_pos hl]; rfl
    · rw [if_neg hl]
      simp only [validate_url_parsed]
      rw [if_neg (by simp [h1, h2])]
      rfl
  · intro urlLen u hostStr ip hhost hip
    unfold validate_url
    by_cases hl : urlLen > 2048
    · rw [if_pos hl]; rfl
    · rw [if_neg hl]
      simp only [validate_url_parsed]
      by_cases hs : (u.scheme == ("http") || u.scheme == ("https")) = true
      · rw [if_pos hs, hhost]
        simp only [validate_url_host]
        by_cases hloc : is_localhost hostStr = true
        · rw [if_pos hloc]; rfl
        · rw [if_neg hloc, if_pos (claimed_implies_private ip hip)]; rfl
      · rw [if_neg hs]; rfl

/-! ## Character set of sanitizer outputs -/

/-- Characters that can occur in a sanitize_map_name output: lowercase
letters, digits, dash, underscore. -/
def goodFinal (c : Char) : Bool :=
  (97 ≤ c.toNat && c.toNat ≤ 122) || (48 ≤ c.toNat && c.toNat ≤ 57) ||
  c.toNat == 45 || c.toNat == 95

/-- Characters surviving filter and lowercasing, before the space
replacement. -/
def goodOrSpace (c : Char) : Bool :=
  goodFinal c || c.toNat == 32

/-- Kept characters are ASCII in the embedding. -/
theorem keepChar_toNat_lt (c : Char) (h : keepChar c = true) : c.toNat < 128 := by
  simp only [keepChar, rustIsAlphanumeric, Bool.or_eq_true, Bool.and_eq_true, beq_iff_eq,
    decide_eq_true_eq] at h
  omega

set_option maxRecDepth 4000 in
/-- Enumerated fact: on ASCII characters the filter set agrees with the
specification name set after lowercasing. -/
theorem keep_iff_inNameSet_ofNat :
    ∀ i : Fin 128, keepChar (Char.ofNat i.val) = inNameSet (rustToLower (Char.ofNat i.val)) := by
  decide

/-- On ASCII characters the filter set agrees with the specification name
set after lowercasing. -/
theorem keep_iff_inNameSet (c : Char) (hc : c.toNat < 128) :
    keepChar c = inNameSet (rustToLower c) := by
  have h : keepChar (Char.ofNat c.toNat) = inNameSet (rustToLower (Char.ofNat c.toNat)) :=
    keep_iff_inNameSet_ofNat ⟨c.toNat, hc⟩
  rwa [Char.ofNat_toNat] at h

set_option maxRecDepth 4000 in
/-- Enumerated fact: lowercasing a kept character lands in the output set
(or is a space). -/
theorem keep_good_ofNat :
    ∀ i : Fin 128, keepChar (Char.ofNat i.val) = true →
      goodOrSpace (rustToLower (Char.ofNat i.val)) = true := by
  decide

/-- Lowercasing a kept character lands in the output set or is a space. -/
theorem keep_good (c : Char) (h : keepChar c = true) :
    goodOrSpace (rustToLower c) = true := by
  have hc := keepChar_toNat_lt c h
  have h2 : keepChar (Char.ofNat c.toNat) = true →
      goodOrSpace (rustToLower (Char.ofNat c.toNat)) = true := keep_good_ofNat ⟨c.toNat, hc⟩
  rw [Char.ofNat_toNat] at h2
  exact h2 h

/-- Output characters are kept by the filter. -/
theorem good_keep (c : Char) (h : goodFinal c = true) : keepChar c = true := by
  simp only [goodFinal, Bool.or_eq_true, Bool.and_eq_true, beq_iff_eq, decide_eq_true_eq] at h
  simp only [keepChar, rustIsAlphanumeric, Bool.or_eq_true, Bool.and_eq_true, beq_iff_eq,
    decide_eq_true_eq]
  omega

/-- Output characters are fixed by lowercasing. -/
theorem good_lower_id (c : Char) (h : goodFinal c = true) : rustToLower c = c := by
  simp only [goodFinal, Bool.or_eq_true, Bool.and_eq_true, beq_iff_eq, decide_eq_true_eq] at h
  unfold rustToLower
  rw [if_neg]
  simp only [Bool.and_eq_true, decide_eq_true_eq, not_and]
  omega

/-- Output characters are not whitespace. -/
theorem good_not_ws (c : Char) (h : goodFinal c = true) : rustIsWhitespace c = false := by
  simp only [goodFinal, Bool.or_eq_true, Bool.and_eq_true, beq_iff_eq, decide_eq_true_eq] at h
  simp only [rustIsWhitespace, Bool.or_eq_false_iff, Bool.and_eq_false_iff,
    beq_eq_false_iff_ne, ne_eq, decide_eq_false_iff_not]
  omega

/-- Output characters are not the space. -/
theorem good_not_space (c : Char) (h : goodFinal c = true) : (c.toNat == 32) = false := by
  simp only [goodFinal, Bool.or_eq_true, Bool.and_eq_true, beq_iff_eq, decide_eq_true_eq] at h
  simp only [beq_eq_false_iff_ne, ne_eq]
  omega

/-- Membership in a dropWhile result implies membership in the list. -/
theorem mem_of_mem_dropWhile {p : Char → Bool} {l : List Char} {c : Char}
    (h : c ∈ l.dropWhile p) : c ∈ l := by
  induction l with
  | nil => simp at h
  | cons a tl ih =>
    rw [List.dropWhile_cons] at h
    by_cases hp : p a = true
    · rw [if_pos hp] at h
      exact List.mem_cons_of_mem a (ih h)
    · rw [if_neg hp] at h
      exact h

/-- Membership in trimChars implies membership in the source list. -/
theorem mem_of_mem_trimChars {l : List Char} {c : Char} (h : c ∈ trimChars l) : c ∈ l := by
  unfold trimChars at h
  rw [List.mem_reverse] at h
  have h2 := mem_of_mem_dropWhile h
  rw [List.mem_reverse] at h2
  exact mem_of_mem_dropWhile h2

/-- Decomposition of a successful sanitization: the output data is the
normalized list and the three rejection conditions fail on it. -/
theorem sanitize_ok_conditions (s t : String) (h : sanitize_map_name s = .ok t) :
    t.data = spacesToUnderscores (trimChars (lowerChars (s.data.filter keepChar))) ∧
    t.data.isEmpty = false ∧ t.data.length ≤ 255 ∧
    (t.data.head? == some ('.') || t.data.head? == some ('-')) = false := by
  simp only [sanitize_map_name] at h
  split at h
  · cases h
  · split at h
    · cases h
    · split at h
      · cases h
      · rename_i hemp hlen hhead
        simp only [Except.ok.injEq] at h
        subst h
        refine ⟨rfl, by simpa using hemp, ?_, by simpa using hhead⟩
        show (spacesToUnderscores (trimChars (lowerChars (s.data.filter keepChar)))).length ≤ 255
        omega

/-- Every character of a sanitize_map_name output lies in the output set
(lowercase letters, digits, dash, underscore). -/
theorem sanitize_output_chars (s t : String) (h : sanitize_map_name s = .ok t) :
    ∀ c ∈ t.data, goodFinal c = true := by
  obtain ⟨hdata, _, _, _⟩ := sanitize_ok_conditions s t h
  intro c hc
  rw [hdata] at hc
  rcases List.mem_map.mp hc with ⟨c1, hc1, rfl⟩
  have hc2 := mem_of_mem_trimChars hc1
  rcases List.mem_map.mp hc2 with ⟨c0, hc0, rfl⟩
  have hkeep := (List.mem_filter.mp hc0).2
  have hgood := keep_good c0 hkeep
  by_cases hsp : ((rustToLower c0).toNat == 32) = true
  · rw [if_pos hsp]; decide
  · rw [if_neg hsp]
    simp only [goodOrSpace, Bool.or_eq_true] at hgood
    rcases hgood with hg | hg
    · exact hg
    · exact absurd hg hsp

/-- List-level consequences: dropping while a predicate fails at the head
leaves the list unchanged. -/
theorem dropWhile_eq_self_of_all {p : Char → Bool} {l : List Char}
    (h : ∀ c ∈ l, p c = false) : l.dropWhile p = l := by
  cases l with
  | nil => rfl
  | cons a tl =>
    rw [List.dropWhile_cons, if_neg]
    rw [h a (by simp)]
    simp

/-- Trimming a list without whitespace is the identity. -/
theorem trimChars_eq_self_of_all {l : List Char}
    (h : ∀ c ∈ l, rustIsWhitespace c = false) : trimChars l = l := by
  unfold trimChars
  rw [dropWhile_eq_self_of_all h]
  rw [dropWhile_eq_self_of_all (fun c hc => h c (List.mem_reverse.mp hc))]
  exact List.reverse_reverse l

/-- Name sanitization is idempotent: every output is a fixed point, so the
outputs are exactly the fixed points of the sanitizer. -/
theorem sanitize_output_fixed (s t : String) (h : sanitize_map_name s = .ok t) :
    sanitize_map_name t = .ok t := by
  have hchars := sanitize_output_chars s t h
  obtain ⟨_, hemp, hlen, hhead⟩ := sanitize_ok_conditions s t h
  have hfilter : t.data.filter keepChar = t.data :=
    List.filter_eq_self.mpr (fun c hc => good_keep c (hchars c hc))
  have hlower : lowerChars t.data = t.data := by
    unfold lowerChars
    rw [List.map_congr_left (fun c hc => good_lower_id c (hchars c hc))]
    exact List.map_id t.data
  have htrim : trimChars t.data = t.data :=
    trimChars_eq_self_of_all (fun c hc => good_not_ws c (hchars c hc))
  have hspace : spacesToUnderscores t.data = t.data := by
    unfold spacesToUnderscores
    rw [List.map_congr_left (fun c hc => by rw [if_neg (by simp [good_not_space c (hchars c hc)])])]
    exact List.map_id t.data
  have hnorm : spacesToUnderscores (trimChars (lowerChars (t.data.filter keepChar))) = t.data := by
    rw [hfilter, hlower, htrim, hspace]
  simp only [sanitize_map_name, hnorm]
  rw [if_neg (by simp [hemp]), if_neg (by omega), if_neg (by simp [hhead])]

/-! ## Claim C6 -/

/-- Filtering then lowercasing equals lowercasing then filtering against
the specification character set, on ASCII input. -/
theorem filter_lower_comm (l : List Char) (hl : ∀ c ∈ l, c.toNat < 128) :
    (l.filter keepChar).map rustToLower = (l.map rustToLower).filter inNameSet := by
  induction l with
  | nil => rfl
  | cons c tl ih =>
    have hc := hl c (by simp)
    have htl : ∀ x ∈ tl, x.toNat < 128 := fun x hx => hl x (by simp [hx])
    have hkey := keep_iff_inNameSet c hc
    rw [List.map_cons, List.filter_cons, List.filter_cons, ← hkey]
    by_cases hk : keepChar c = true
    · rw [if_pos (by simp [hk]), if_pos (by simp [hk]), List.map_cons, ih htl]
    · rw [if_neg (by simpa using hk), if_neg (by simpa using hk), ih htl]

/-- The code normal form coincides with the amended-claim normal form on
ASCII input. -/
theorem normalize_eq_amended (s : String) (hs : isAsciiString s = true) :
    spacesToUnderscores (trimChars (lowerChars (s.data.filter keepChar))) =
      (amendedNormalize s).data := by
  have hl : ∀ c ∈ s.data, c.toNat < 128 := by
    intro c hc
    have := List.all_eq_true.mp hs c hc
    simpa using this
  unfold amendedNormalize lowerChars
  rw [← filter_lower_comm s.data hl]

/-- C6 counterexample: on the input with two inner spaces the code yields
two underscores, while the claimed behavior (whitespace collapsing)
yields one. -/
theorem C6_collapse_counterexample :
    sanitize_map_name ("a  b") = .ok ("a__b") ∧
    claimSanitizeWithCollapse ("a  b") = .ok ("a_b") ∧
    ("a__b" : String) ≠ ("a_b" : String) := by
  refine ⟨by decide, by decide, by decide⟩

/-- C6 amended: on ASCII input, sanitize_map_name succeeds exactly when
the amended normal form (lowercase, strip characters outside the name
set, trim — without collapsing interior whitespace — and turn each space
into an underscore) is non-empty, at most 255 characters long and does
not start with a dot or a dash, and then the output is that normal
form. -/
theorem C6_sanitize_amended (s t : String) (hs : isAsciiString s = true) :
    sanitize_map_name s = .ok t ↔
      (t = amendedNormalize s ∧ t.data.isEmpty = false ∧ t.data.length ≤ 255 ∧
       (t.data.head? == some ('.') || t.data.head? == some ('-')) = false) := by
  constructor
  · intro h
    obtain ⟨hdata, hemp, hlen, hhead⟩ := sanitize_ok_conditions s t h
    refine ⟨?_, hemp, hlen, hhead⟩
    have h2 : t.data = (amendedNormalize s).data := by
      rw [hdata, normalize_eq_amended s hs]
    cases t
    cases hamd : amendedNormalize s
    simp only at h2
    rw [hamd] at h2
    simp [h2]
  · intro ⟨hval, hemp, hlen, hhead⟩
    subst hval
    simp only [sanitize_map_name, normalize_eq_amended s hs]
    rw [if_neg (by simp [hemp]), if_neg (by omega), if_neg (by simp [hhead])]

/-- Witness for C6 at a concrete input: a mixed-case name with one space. -/
theorem C6_sanitize_amended_witness :
    sanitize_map_name ("My Map") = .ok ("my_map") :=
  (C6_sanitize_amended ("My Map") ("my_map") (by decide)).mpr (by decide)

/-! ## Filesystem-set lemmas -/

/-- Containment in the name-list model coincides with membership. -/
theorem contains_eq_mem (fs : List String) (x : String) : fs.contains x = true ↔ x ∈ fs := by
  simp [List.contains, List.elem_iff]

/-- Placing and then deleting a name that was not present restores the
directory. -/
theorem fsErase_fsInsert (fs : List String) (name : String)
    (h : fs.contains name = false) : fsErase (fsInsert fs name) name = fs := by
  have hmem : name ∉ fs := by
    intro hc
    rw [(contains_eq_mem fs name).mpr hc] at h
    cases h
  unfold fsInsert fsErase
  rw [if_neg (by simp [hmem])]
  rw [List.filter_append]
  have h1 : fs.filter (fun f => f != name) = fs :=
    List.filter_eq_self.mpr (fun c hc => by
      simp only [bne_iff_ne, ne_eq, decide_eq_true_eq]
      intro hcontr
      subst hcontr
      exact hmem hc)
  have h2 : [name].filter (fun f => f != name) = [] := by simp
  rw [h1, h2, List.append_nil]

/-- Insertion preserves containment of other names. -/
theorem contains_fsInsert (fs : List String) (name x : String)
    (h : fs.contains x = true) : (fsInsert fs name).contains x = true := by
  unfold fsInsert
  split
  · exact h
  · rw [contains_eq_mem] at h ⊢
    exact List.mem_append_left _ h

/-- Deleting one name preserves containment of a different name. -/
theorem contains_fsErase_ne (fs : List String) (name x : String)
    (h : fs.contains x = true) (hne : x ≠ name) : (fsErase fs name).contains x = true := by
  unfold fsErase
  rw [contains_eq_mem] at h ⊢
  exact List.mem_filter.mpr ⟨h, by simpa using hne⟩

/-! ## Claim C9 -/

/-- C9 counterexample: the watcher reconciliation registers a detected VPK
under the raw metadata title, here the single bang character, which no run
of the name sanitizer can produce (the sanitizer rejects it, and every
sanitizer output is a sanitizer fixed point). -/
theorem C9_watcher_name_counterexample :
    (detect_map_from_path [] (some ("m.vpk")) (some ("vpk")) ("/srv/addons/m.vpk")
        (.ok { title := "!", version := "1.0" }) none ("uuid-1") 7).2 =
      .ok (some { id := "uuid-1", name := "!", source_url := "detected:/srv/addons/m.vpk",
                  source_kind := SourceKind.other, workshop_id := none,
                  installed_path := "m.vpk", installed_at := 7, version := some ("1.0"),
                  checksum := none, checksum_kind := none }) ∧
    sanitize_map_name ("!") = .error ("Map name cannot be empty after sanitization") ∧
    sanitize_map_name ("!") ≠ .ok ("!") := by
  refine ⟨by decide, by decide, by decide⟩

/-- C9 amended: entries created by the installation pipeline carry
sanitized names (the sanitizer accepts the chosen raw name and its output
is the stored name), while an entry created by watcher reconciliation
stores the raw VPK metadata title verbatim, unsanitized. -/
theorem C9_name_sanitization_amended :
    (∀ (st : InstallSt) (vpkPath : String) (sk : SourceKind) (ws : Option Nat)
        (pname : Option String) (md : VpkMetadata) (newId : String) (copyOk : Bool)
        (cks : Option String) (now : Nat) (st2 : InstallSt) (e : MapEntry),
      install_vpk_file st vpkPath sk ws pname (.ok md) newId copyOk cks now = (st2, .ok e) →
      sanitize_map_name (pname.getD md.title) = .ok e.name) ∧
    (∀ (st : InstallSt) (zipPath : String) (sk : SourceKind) (pname : Option String)
        (scratch vp : String) (rest : List String) (md : VpkMetadata)
        (newId : String) (copyOk : Bool) (cks : Option String) (now : Nat)
        (st2 : InstallSt) (e : MapEntry),
      install_zip_file st zipPath sk pname (.ok true) scratch true (vp :: rest) (.ok md)
          newId copyOk cks now = (st2, .ok e) →
      sanitize_map_name (pname.getD md.title) = .ok e.name) ∧
    (∀ (db : List Row) (rel pathDisplay : String) (md : VpkMetadata) (cks : Option String)
        (newId : String) (now : Nat) (db2 : List Row) (e : MapEntry),
      (list_maps db).find? (fun m => m.installed_path == rel) = none →
      detect_map_from_path db (some rel) (some ("vpk")) pathDisplay (.ok md) cks newId now =
        (db2, .ok (some e)) →
      e.name = md.title) := by
  refine ⟨?_, ?_, ?_⟩
  · intro st vpkPath sk ws pname md newId copyOk cks now st2 e h
    cases hsan : sanitize_map_name (pname.getD md.title) with
    | error err =>
      simp only [install_vpk_file, hsan] at h
      simp at h
    | ok nm =>
      simp only [install_vpk_file, hsan] at h
      cases copyOk with
      | false => simp at h
      | true =>
        simp only [if_true] at h
        split at h
        · simp at h
        · simp only [Prod.mk.injEq, Except.ok.injEq] at h
          obtain ⟨_, he⟩ := h
          have hname : e.name = nm := by rw [← he]
          rw [hname]
  · intro st zipPath sk pname scratch vp rest md newId copyOk cks now st2 e h
    cases hsan : sanitize_map_name (pname.getD md.title) with
    | error err =>
      simp only [install_zip_file, hsan] at h
      simp at h
    | ok nm =>
      simp only [install_zip_file, hsan] at h
      cases copyOk with
      | false => simp at h
      | true =>
        simp only [if_true] at h
        split at h
        · simp at h
        · simp only [Prod.mk.injEq, Except.ok.injEq] at h
          obtain ⟨_, he⟩ := h
          have hname : e.name = nm := by rw [← he]
          rw [hname]
  · intro db rel pathDisplay md cks newId now db2 e hfind h
    simp only [detect_map_from_path, hfind,
      show ((some ("vpk") : Option String) == some ("vpk")) = true from by decide,
      if_true] at h
    split at h
    · simp at h
    · simp only [Prod.mk.injEq, Except.ok.injEq, Option.some.injEq] at h
      obtain ⟨_, he⟩ := h
      have hname : e.name = md.title := by rw [← he]
      exact hname

/-! ## Claim C4 -/

/-- Concrete live registry entry named foo, for the name-conflict
evaluations. -/
def entryFoo : MapEntry :=
  { id := "id-0"
    name := "foo"
    source_url := "file:foo.vpk"
    source_kind := SourceKind.other
    workshop_id := none
    installed_path := "foo.vpk"
    installed_at := 0
    version := none
    checksum := none
    checksum_kind := none }

/-- C4 counterexample: with a live entry named foo already listed and no
caller-supplied display name, installing a VPK whose metadata title
sanitizes to foo succeeds — no name-conflict check runs after metadata
extraction, although the claim says the install is rejected. -/
theorem C4_conflict_counterexample :
    (list_maps [rowOfEntry entryFoo]).any (fun m => m.name == ("foo")) = true ∧
    sanitize_map_name ("Foo") = .ok ("foo") ∧
    (install_vpk_file { registry := [rowOfEntry entryFoo], addons := [], temps := ["dl.vpk"] }
        ("dl.vpk") SourceKind.other none none (.ok { title := "Foo", version := "1" })
        ("id-1") true none 3).2 =
      .ok { id := "id-1", name := "foo", source_url := "file:dl.vpk",
            source_kind := SourceKind.other, workshop_id := none, installed_path := "dl.vpk",
            installed_at := 3, version := some ("1"), checksum := none,
            checksum_kind := none } := by
  refine ⟨by decide, by decide, by decide⟩

/-- C4 amended: when the caller supplies no display name, the pipeline
applies no name-conflict check after metadata extraction — for any state
whose registry already lists a live entry with the sanitized metadata
title, both install legs still succeed (only the fresh id has to avoid a
primary-key collision), producing a second entry with the same name. -/
theorem C4_no_metadata_name_check_amended :
    (∀ (st : InstallSt) (vpkPath : String) (sk : SourceKind) (ws : Option Nat)
        (md : VpkMetadata) (nm newId : String) (cks : Option String) (now : Nat),
      sanitize_map_name md.title = .ok nm →
      (∃ m ∈ list_maps st.registry, m.name = nm) →
      st.registry.any (fun r => r.id == newId) = false →
      ∃ e, (install_vpk_file st vpkPath sk ws none (.ok md) newId true cks now).2 = .ok e ∧
        e.name = nm) ∧
    (∀ (st : InstallSt) (zipPath : String) (sk : SourceKind) (scratch vp : String)
        (rest : List String) (md : VpkMetadata) (nm newId : String)
        (cks : Option String) (now : Nat),
      sanitize_map_name md.title = .ok nm →
      (∃ m ∈ list_maps st.registry, m.name = nm) →
      st.registry.any (fun r => r.id == newId) = false →
      ∃ e, (install_zip_file st zipPath sk none (.ok true) scratch true (vp :: rest) (.ok md)
          newId true cks now).2 = .ok e ∧ e.name = nm) := by
  constructor
  · intro st vpkPath sk ws md nm newId cks now hsan hdup hfresh
    simp only [install_vpk_file, Option.getD_none, hsan, if_true, add_map, hfresh,
      Bool.false_eq_true, if_false]
    exact ⟨_, rfl, rfl⟩
  · intro st zipPath sk scratch vp rest md nm newId cks now hsan hdup hfresh
    simp only [install_zip_file, Option.getD_none, hsan, if_true, add_map, hfresh,
      Bool.false_eq_true, if_false]
    exact ⟨_, rfl, rfl⟩

/-- Witness for C4 at the concrete conflicting state of the
counterexample input. -/
theorem C4_no_metadata_name_check_witness :
    ∃ e, (install_vpk_file { registry := [rowOfEntry entryFoo], addons := [], temps := ["dl.vpk"] }
        ("dl.vpk") SourceKind.other none none (.ok { title := "Foo", version := "1" })
        ("id-1") true none 3).2 = .ok e ∧ e.name = ("foo") :=
  C4_no_metadata_name_check_amended.1
    { registry := [rowOfEntry entryFoo], addons := [], temps := ["dl.vpk"] }
    ("dl.vpk") SourceKind.other none { title := "Foo", version := "1" } ("foo") ("id-1")
    none 3 (by decide) ⟨entryFoo, by decide, by decide⟩ (by decide)

/-! ## Claim C1 -/

/-- C1 counterexample: two failed installs that leave temporary artifacts
behind.  A VPK install whose metadata extraction fails returns the error
with the downloaded archive still present in the temp directory, and a
ZIP install whose inner VPK is malformed leaves both the downloaded ZIP
and the scratch extraction directory behind. -/
theorem C1_residue_counterexample :
    install_vpk_file { registry := [], addons := [], temps := ["dl.vpk"] } ("dl.vpk")
        SourceKind.other none none (.error ("vpk header malformed")) ("id-1") true none 0 =
      ({ registry := [], addons := [], temps := ["dl.vpk"] },
        .error ("vpk header malformed")) ∧
    install_zip_file { registry := [], addons := [], temps := ["a.zip"] } ("a.zip")
        SourceKind.other none (.ok true) ("extract-1") true ["x.vpk"]
        (.error ("bad vpk inside zip")) ("id-1") true none 0 =
      ({ registry := [], addons := [], temps := ["a.zip", "extract-1"] },
        .error ("bad vpk inside zip")) := by
  refine ⟨by decide, by decide⟩

/-- C1 amended: a failed install leaves the registry unchanged, and the
add-ons directory is restored whenever the placed file name was not
already present (an insert failure deletes the file it placed); but the
downloaded archive is never deleted on failure, and the scratch
extraction directory survives the failure paths after extraction. -/
theorem C1_failed_install_rollback_amended :
    (∀ (st : InstallSt) (vpkPath : String) (sk : SourceKind) (ws : Option Nat)
        (pname : Option String) (meta : Except String VpkMetadata) (newId : String)
        (copyOk : Bool) (cks : Option String) (now : Nat) (st2 : InstallSt) (err : String),
      install_vpk_file st vpkPath sk ws pname meta newId copyOk cks now = (st2, .error err) →
      st2.registry = st.registry ∧ st2.temps = st.temps ∧
      (st.addons.contains (placedVpkFilename vpkPath) = false → st2.addons = st.addons)) ∧
    (∀ (st : InstallSt) (zipPath : String) (sk : SourceKind) (pname : Option String)
        (hasVpk : Except String Bool) (scratch : String) (extractOk : Bool)
        (foundVpks : List String) (meta : Except String VpkMetadata) (newId : String)
        (copyOk : Bool) (cks : Option String) (now : Nat) (st2 : InstallSt) (err : String),
      scratch ≠ zipPath →
      install_zip_file st zipPath sk pname hasVpk scratch extractOk foundVpks meta newId
          copyOk cks now = (st2, .error err) →
      st2.registry = st.registry ∧
      (st.temps.contains zipPath = true → st2.temps.contains zipPath = true) ∧
      (st.addons.contains (placedVpkFilename (foundVpks.headD (""))) = false →
        st2.addons = st.addons)) := by
  constructor
  · intro st vpkPath sk ws pname meta newId copyOk cks now st2 err h
    cases meta with
    | error e0 =>
      simp only [install_vpk_file] at h
      simp only [Prod.mk.injEq] at h
      obtain ⟨hst, _⟩ := h
      subst hst
      exact ⟨rfl, rfl, fun _ => rfl⟩
    | ok md =>
      cases hsan : sanitize_map_name (pname.getD md.title) with
      | error e0 =>
        simp only [install_vpk_file, hsan] at h
        simp only [Prod.mk.injEq] at h
        obtain ⟨hst, _⟩ := h
        subst hst
        exact ⟨rfl, rfl, fun _ => rfl⟩
      | ok nm =>
        simp only [install_vpk_file, hsan] at h
        cases copyOk with
        | false =>
          simp only [Bool.false_eq_true, if_false, Prod.mk.injEq] at h
          obtain ⟨hst, _⟩ := h
          subst hst
          exact ⟨rfl, rfl, fun _ => rfl⟩
        | true =>
          simp only [if_true] at h
          split at h
          · simp only [Prod.mk.injEq] at h
            obtain ⟨hst, _⟩ := h
            subst hst
            refine ⟨rfl, rfl, fun hnc => ?_⟩
            simp only
            exact fsErase_fsInsert st.addons (placedVpkFilename vpkPath) hnc
          · simp at h
  · intro st zipPath sk pname hasVpk scratch extractOk foundVpks meta newId copyOk cks now
      st2 err hne h
    cases hasVpk with
    | error e0 =>
      simp only [install_zip_file, Prod.mk.injEq] at h
      obtain ⟨hst, _⟩ := h
      subst hst
      exact ⟨rfl, fun hz => hz, fun _ => rfl⟩
    | ok b =>
      cases b with
      | false =>
        simp only [install_zip_file, Prod.mk.injEq] at h
        obtain ⟨hst, _⟩ := h
        subst hst
        exact ⟨rfl, fun hz => hz, fun _ => rfl⟩
      | true =>
        cases extractOk with
        | false =>
          simp only [install_zip_file, Bool.false_eq_true, if_false, Prod.mk.injEq] at h
          obtain ⟨hst, _⟩ := h
          subst hst
          refine ⟨rfl, fun hz => ?_, fun _ => rfl⟩
          exact contains_fsErase_ne _ scratch zipPath (contains_fsInsert _ scratch zipPath hz)
            (fun hcontr => hne hcontr.symm)
        | true =>
          cases foundVpks with
          | nil =>
            simp only [install_zip_file, if_true, Prod.mk.injEq] at h
            obtain ⟨hst, _⟩ := h
            subst hst
            refine ⟨rfl, fun hz => ?_, fun _ => rfl⟩
            exact contains_fsErase_ne _ scratch zipPath (contains_fsInsert _ scratch zipPath hz)
              (fun hcontr => hne hcontr.symm)
          | cons vp rest =>
            cases meta with
            | error e0 =>
              simp only [install_zip_file, if_true, Prod.mk.injEq] at h
              obtain ⟨hst, _⟩ := h
              subst hst
              exact ⟨rfl, fun hz => contains_fsInsert _ scratch zipPath hz, fun _ => rfl⟩
            | ok md =>
              cases hsan : sanitize_map_name (pname.getD md.title) with
              | error e0 =>
                simp only [install_zip_file, if_true, hsan, Prod.mk.injEq] at h
                obtain ⟨hst, _⟩ := h
                subst hst
                exact ⟨rfl, fun hz => contains_fsInsert _ scratch zipPath hz, fun _ => rfl⟩
              | ok nm =>
                simp only [install_zip_file, if_true, hsan] at h
                cases copyOk with
                | false =>
                  simp only [Bool.false_eq_true, if_false, Prod.mk.injEq] at h
                  obtain ⟨hst, _⟩ := h
                  subst hst
                  exact ⟨rfl, fun hz => contains_fsInsert _ scratch zipPath hz, fun _ => rfl⟩
                | true =>
                  simp only [if_true] at h
                  split at h
                  · simp only [Prod.mk.injEq] at h
                    obtain ⟨hst, _⟩ := h
                    subst hst
                    refine ⟨rfl, fun hz => contains_fsInsert _ scratch zipPath hz, fun hnc => ?_⟩
                    simp only
                    exact fsErase_fsInsert st.addons (placedVpkFilename vp) hnc
                  · simp at h

end Kether
